import Mathlib

/-!
Verification of `src/packages/cdk8s/src/metadata.ts`
(`ApiObjectMetadataDefinition`): a shallow embedding of the metadata
record, its mutating operations and its `toJson` serialization, together
with models of the external collaborators `resolve` (from `./_resolve`)
and `sanitizeValue` (from `./_util`), whose sources are not part of this
excerpt and are therefore modelled from the specification.
-/

set_option autoImplicit false

namespace Cdk8s

/-- A JSON-like JavaScript value: `undefined`, strings, numbers, booleans,
sequences and mappings (objects as association lists of string keys).
`undef` represents the JavaScript value `undefined`, which a field such as
`name?: string` takes when absent. -/
inductive Value where
  | undef : Value
  | str (s : String) : Value
  | num (n : Int) : Value
  | boolean (b : Bool) : Value
  | arr (elems : List Value) : Value
  | obj (fields : List (String × Value)) : Value
  deriving Repr

/-- Association-list update mirroring a JavaScript object assignment
`o[k] = v`: every existing entry for `k` is removed and the new entry is
appended.  Key order inside an object is not observable in this
development (the spec guarantees no key order), so placing the updated
entry at the end is an equivalent representation. -/
def alSet {α : Type} : List (String × α) → String → α → List (String × α)
  | [], k, v => [(k, v)]
  | (k', v') :: rest, k, v =>
    if k' = k then alSet rest k v else (k', v') :: alSet rest k v

/-- Association-list lookup mirroring a JavaScript property read `o[k]`:
the entry for `k`, or `none` when the key is absent. -/
def alGet {α : Type} : List (String × α) → String → Option α
  | [], _ => none
  | (k', v') :: rest, k => if k' = k then some v' else alGet rest k

/-- Options for the sanitizer, mirroring the `{ filterEmptyArrays,
filterEmptyObjects }` options object of `sanitizeValue`. -/
structure SanitizeOptions where
  filterEmptyArrays : Bool
  filterEmptyObjects : Bool
  deriving Repr

/-- Whether a (already sanitized) value is removed from its enclosing
mapping: `undefined` values always, empty sequences and empty mappings
when the corresponding filter flag is enabled. -/
def dropped (opts : SanitizeOptions) : Value → Bool
  | .undef => true
  | .arr [] => opts.filterEmptyArrays
  | .obj [] => opts.filterEmptyObjects
  | _ => false

mutual

/-- Modelled from the spec: `sanitizeValue` from `./_util` (not part of
this excerpt).  §4.1 step 3 / §6: "recursively strips absent/empty
entries per the given flags" — recursively remove mapping entries whose
value is `undefined`; additionally remove entries whose value is an empty
mapping or empty sequence when the respective flag is set; recursion
applies at every nesting depth (including array elements), bottom-up, so
that emptiness introduced by removing nested absent values is itself
detected. -/
def sanitizeValue (opts : SanitizeOptions) : Value → Value
  | .arr elems => .arr (sanitizeList opts elems)
  | .obj fields =>
    .obj ((sanitizeFields opts fields).filter (fun p => !(dropped opts p.2)))
  | v => v

/-- Sanitize every element of a sequence. -/
def sanitizeList (opts : SanitizeOptions) : List Value → List Value
  | [] => []
  | x :: xs => sanitizeValue opts x :: sanitizeList opts xs

/-- Sanitize the value of every entry of a mapping (the removal of
dropped entries happens in `sanitizeValue` on the enclosing object). -/
def sanitizeFields (opts : SanitizeOptions) :
    List (String × Value) → List (String × Value)
  | [] => []
  | (k, v) :: fs => (k, sanitizeValue opts v) :: sanitizeFields opts fs

end

/-- Modelled from the spec: `resolve` from `./_resolve` (not part of this
excerpt).  §6: "recursively substitutes any deferred computation with its
concrete result"; §4.1 step 2: "Resolution is idempotent: resolving an
already-concrete value is a no-op."  The values of this embedding are all
concrete (it has no deferred-token constructor), so on them resolution is
a no-op. -/
def resolve (v : Value) : Value := v

/-- The construction options bundle `ApiObjectMetadata`: the typed fields
`name?`, `annotations?`, `labels?`, `namespace?`, plus arbitrary
additional attributes (`[key: string]: any`).  `extra` holds the
additional keys; a JavaScript object has unique keys, and the typed keys
are stored separately, so `extra` is key-disjoint from them by
construction of `toObj` below. -/
structure ApiObjectMetadata where
  name : Option String := none
  annotations : Option (List (String × String)) := none
  labels : Option (List (String × String)) := none
  namespace' : Option String := none
  extra : List (String × Value) := []

/-- A string-to-string mapping viewed as a JSON object value. -/
def strObj (m : List (String × String)) : Value :=
  .obj (m.map (fun p => (p.1, .str p.2)))

/-- An optional string field read as a JavaScript value (`undefined` when
the field is absent). -/
def optStr : Option String → Value
  | none => .undef
  | some s => .str s

/-- An optional mapping field read as a JavaScript value (`undefined`
when the field is absent). -/
def optStrObj : Option (List (String × String)) → Value
  | none => .undef
  | some m => strObj m

/-- The options bundle as the JavaScript object the constructor receives:
each present typed field contributes its entry, and the additional keys
follow.  (Key order inside an object is unobservable.) -/
def ApiObjectMetadata.toObj (o : ApiObjectMetadata) : List (String × Value) :=
  (match o.name with | none => [] | some s => [("name", Value.str s)]) ++
  (match o.annotations with | none => [] | some m => [("annotations", strObj m)]) ++
  (match o.labels with | none => [] | some m => [("labels", strObj m)]) ++
  (match o.namespace' with | none => [] | some s => [("namespace", Value.str s)]) ++
  o.extra

/-- The state of an `ApiObjectMetadataDefinition` object: its five
fields.  `labels` and `annotations` are declared in the source as
non-nullable mappings; they are embedded as `Option` so that the
invariant that they are never absent (spec §3) is a provable statement
rather than a typing artefact. -/
structure ApiObjectMetadataDefinition where
  name : Option String
  namespace' : Option String
  labels : Option (List (String × String))
  annotations : Option (List (String × String))
  additionalAttributes : List (String × Value)

namespace ApiObjectMetadataDefinition

/-- The constructor (`metadata.ts` lines 95–101): `name` and `namespace`
are copied, `labels` and `annotations` default to the empty mapping
(`options.labels ?? { }`), and the entire options object is retained as
the additional attributes (`options ?? { }`; the `?? { }` is vacuous
because the parameter already defaults to `{ }`). -/
def init (options : ApiObjectMetadata := {}) : ApiObjectMetadataDefinition where
  name := options.name
  labels := some (options.labels.getD [])
  annotations := some (options.annotations.getD [])
  namespace' := options.namespace'
  additionalAttributes := options.toObj

/-- Method `addLabel` (lines 109–111): `this.labels[key] = value`. -/
def addLabel (st : ApiObjectMetadataDefinition) (key value : String) :
    ApiObjectMetadataDefinition :=
  { st with labels := st.labels.map (fun m => alSet m key value) }

/-- Method `getLabel` (lines 117–119): `return this.labels[key]`. -/
def getLabel (st : ApiObjectMetadataDefinition) (key : String) :
    Option String :=
  st.labels.bind (fun m => alGet m key)

/-- Method `addAnnotation` (lines 127–129): `this.annotations[key] = value`. -/
def addAnnotation (st : ApiObjectMetadataDefinition) (key value : String) :
    ApiObjectMetadataDefinition :=
  { st with annotations := st.annotations.map (fun m => alSet m key value) }

/-- Method `add` (lines 136–138): `this._additionalAttributes[key] = value`. -/
def add (st : ApiObjectMetadataDefinition) (key : String) (value : Value) :
    ApiObjectMetadataDefinition :=
  { st with additionalAttributes := alSet st.additionalAttributes key value }

/-- The merged mapping built by the object literal inside `toJson`
(lines 145–151): spread `_additionalAttributes`, then write the keys
`name`, `namespace`, `annotations`, `labels` from the typed fields. -/
def mergedEntries (st : ApiObjectMetadataDefinition) : List (String × Value) :=
  alSet (alSet (alSet (alSet st.additionalAttributes
    "name" (optStr st.name))
    "namespace" (optStr st.namespace'))
    "annotations" (optStrObj st.annotations))
    "labels" (optStrObj st.labels)

/-- Method `toJson` (lines 143–152): sanitize (with both empty filters enabled)
the resolved merged mapping. -/
def toJson (st : ApiObjectMetadataDefinition) : Value :=
  sanitizeValue ⟨true, true⟩ (resolve (.obj (mergedEntries st)))

end ApiObjectMetadataDefinition

/-- Reading a key of a snapshot document (a JSON object). -/
def getKey : Value → String → Option Value
  | .obj fields, k => alGet fields k
  | _, _ => none

/-- The public operations of the record, for stating properties about
arbitrary operation sequences.  `getLabel` and `toSnapshot` are included
as (read-only) operations so invariants range over them too. -/
inductive Op where
  | addLabel (key value : String)
  | addAnnotation (key value : String)
  | add (key : String) (value : Value)
  | getLabel (key : String)
  | toSnapshot

/-- The state transition of one operation (reads leave the state as is,
which is what the source does: `getLabel` and `toJson` assign no field). -/
def applyOp (st : ApiObjectMetadataDefinition) : Op → ApiObjectMetadataDefinition
  | .addLabel k v => st.addLabel k v
  | Op.addAnnotation k v => st.addAnnotation k v
  | .add k v => st.add k v
  | .getLabel _ => st
  | .toSnapshot => st

/-- The state after a sequence of operations. -/
def applyOps (st : ApiObjectMetadataDefinition) (ops : List Op) :
    ApiObjectMetadataDefinition :=
  ops.foldl applyOp st

/-- Modelled from the spec (§7): failures raised by the external
collaborators during `toJson` "propagate unchanged — this component
neither catches nor translates them".  The same composition as `toJson`,
with the collaborators as parameters that may fail; `Except` models a
JavaScript exception crossing the call. -/
def toJsonWith {ε : Type} (resolveF sanitizeF : Value → Except ε Value)
    (st : ApiObjectMetadataDefinition) : Except ε Value :=
  (resolveF (.obj (st.mergedEntries))).bind sanitizeF

/-- The fate of a sanitized entry value: `none` when the enclosing
object's filter removes it, otherwise the sanitized value. -/
def sanKeep (opts : SanitizeOptions) (v : Value) : Option Value :=
  if dropped opts (sanitizeValue opts v) then none else some (sanitizeValue opts v)

/-- The merged mapping as the specification words it (§4.1 step 1):
"start from `additionalAttributes` (spread), then overwrite with `name`,
`namespace`, `annotations`, `labels` (each taken from the typed
fields)" — an explicit left fold of overwrites over the spread base. -/
def specMergedMapping (st : ApiObjectMetadataDefinition) : List (String × Value) :=
  [("name", optStr st.name), ("namespace", optStr st.namespace'),
    ("annotations", optStrObj st.annotations),
    ("labels", optStrObj st.labels)].foldl
    (fun acc p => alSet acc p.1 p.2) st.additionalAttributes

/-- Whether an operation writes the label entry for key `k`. -/
def touchesLabel (k : String) : Op → Bool
  | .addLabel key _ => key == k
  | _ => false

theorem alGet_alSet_self {α : Type} (l : List (String × α)) (k : String) (v : α) :
    alGet (alSet l k v) k = some v := by
  induction l with
  | nil => simp [alSet, alGet]
  | cons hd tl ih =>
    by_cases h : hd.1 = k
    · simpa [alSet, h] using ih
    · simp [alSet, alGet, h, ih]

theorem alGet_alSet_ne {α : Type} (l : List (String × α)) (k k' : String) (v : α)
    (h : k' ≠ k) : alGet (alSet l k v) k' = alGet l k' := by
  have h' : k ≠ k' := Ne.symm h
  induction l with
  | nil => simp [alSet, alGet, h']
  | cons hd tl ih =>
    by_cases hk : hd.1 = k
    · simp [alSet, alGet, hk, h', ih]
    · simp [alSet, alGet, hk, ih]

theorem keys_alSet {α : Type} (l : List (String × α)) (k : String) (v : α) :
    (alSet l k v).map Prod.fst =
      ((l.map Prod.fst).filter (fun a => a ≠ k)) ++ [k] := by
  induction l with
  | nil => simp [alSet]
  | cons hd tl ih =>
    by_cases hk : hd.1 = k
    · simp [alSet, hk, ih]
    · simp [alSet, hk, ih]

theorem alSet_keys_nodup {α : Type} (l : List (String × α)) (k : String) (v : α)
    (h : (l.map Prod.fst).Nodup) : ((alSet l k v).map Prod.fst).Nodup := by
  rw [keys_alSet]
  refine List.Nodup.append (h.filter _) (List.nodup_singleton k) ?_
  intro a ha hk
  rw [List.mem_singleton] at hk
  subst hk
  have := List.of_mem_filter ha
  simp at this

theorem sanFilter_cons_dropped (opts : SanitizeOptions) (k0 : String) (v0 : Value)
    (tl : List (String × Value)) (hdrop : dropped opts (sanitizeValue opts v0) = true) :
    (sanitizeFields opts ((k0, v0) :: tl)).filter (fun p => !(dropped opts p.2)) =
      (sanitizeFields opts tl).filter (fun p => !(dropped opts p.2)) := by
  simp [sanitizeFields, hdrop]

theorem sanFilter_cons_kept (opts : SanitizeOptions) (k0 : String) (v0 : Value)
    (tl : List (String × Value)) (hdrop : dropped opts (sanitizeValue opts v0) = false) :
    (sanitizeFields opts ((k0, v0) :: tl)).filter (fun p => !(dropped opts p.2)) =
      (k0, sanitizeValue opts v0) ::
        (sanitizeFields opts tl).filter (fun p => !(dropped opts p.2)) := by
  simp [sanitizeFields, hdrop]

theorem alGet_sanObj_of_not_mem (opts : SanitizeOptions)
    (fs : List (String × Value)) (k : String) (h : k ∉ fs.map Prod.fst) :
    alGet ((sanitizeFields opts fs).filter (fun p => !(dropped opts p.2))) k = none := by
  induction fs with
  | nil => simp [sanitizeFields, alGet]
  | cons hd tl ih =>
    obtain ⟨k0, v0⟩ := hd
    rw [List.map_cons, List.mem_cons, not_or] at h
    have hne : k0 ≠ k := fun hc => h.1 hc.symm
    cases hdrop : dropped opts (sanitizeValue opts v0) with
    | true =>
      rw [sanFilter_cons_dropped opts k0 v0 tl hdrop]
      exact ih h.2
    | false =>
      rw [sanFilter_cons_kept opts k0 v0 tl hdrop]
      rw [show ∀ rest, alGet ((k0, sanitizeValue opts v0) :: rest) k = alGet rest k
        from fun rest => by simp [alGet, hne]]
      exact ih h.2

theorem alGet_sanObj (opts : SanitizeOptions) (fs : List (String × Value))
    (k : String) (h : (fs.map Prod.fst).Nodup) :
    alGet ((sanitizeFields opts fs).filter (fun p => !(dropped opts p.2))) k =
      (alGet fs k).bind (sanKeep opts) := by
  induction fs with
  | nil => simp [sanitizeFields, alGet]
  | cons hd tl ih =>
    obtain ⟨k0, v0⟩ := hd
    rw [List.map_cons, List.nodup_cons] at h
    by_cases hk : k0 = k
    · subst hk
      cases hdrop : dropped opts (sanitizeValue opts v0) with
      | true =>
        rw [sanFilter_cons_dropped opts k0 v0 tl hdrop]
        rw [alGet_sanObj_of_not_mem opts tl k0 h.1]
        simp [alGet, sanKeep, hdrop]
      | false =>
        rw [sanFilter_cons_kept opts k0 v0 tl hdrop]
        simp [alGet, sanKeep, hdrop]
    · cases hdrop : dropped opts (sanitizeValue opts v0) with
      | true =>
        rw [sanFilter_cons_dropped opts k0 v0 tl hdrop]
        rw [ih h.2]
        simp [alGet, hk]
      | false =>
        rw [sanFilter_cons_kept opts k0 v0 tl hdrop]
        rw [show ∀ rest, alGet ((k0, sanitizeValue opts v0) :: rest) k = alGet rest k
          from fun rest => by simp [alGet, hk]]
        rw [ih h.2]
        simp [alGet, hk]

namespace ApiObjectMetadataDefinition

theorem mergedEntries_get_name (st : ApiObjectMetadataDefinition) :
    alGet st.mergedEntries "name" = some (optStr st.name) := by
  unfold mergedEntries
  rw [alGet_alSet_ne _ _ _ _ (by decide), alGet_alSet_ne _ _ _ _ (by decide),
    alGet_alSet_ne _ _ _ _ (by decide), alGet_alSet_self]

theorem mergedEntries_get_namespace (st : ApiObjectMetadataDefinition) :
    alGet st.mergedEntries "namespace" = some (optStr st.namespace') := by
  unfold mergedEntries
  rw [alGet_alSet_ne _ _ _ _ (by decide), alGet_alSet_ne _ _ _ _ (by decide),
    alGet_alSet_self]

theorem mergedEntries_get_annotations (st : ApiObjectMetadataDefinition) :
    alGet st.mergedEntries "annotations" = some (optStrObj st.annotations) := by
  unfold mergedEntries
  rw [alGet_alSet_ne _ _ _ _ (by decide), alGet_alSet_self]

theorem mergedEntries_get_labels (st : ApiObjectMetadataDefinition) :
    alGet st.mergedEntries "labels" = some (optStrObj st.labels) := by
  unfold mergedEntries
  rw [alGet_alSet_self]

theorem mergedEntries_keys_nodup (st : ApiObjectMetadataDefinition)
    (h : (st.additionalAttributes.map Prod.fst).Nodup) :
    (st.mergedEntries.map Prod.fst).Nodup :=
  alSet_keys_nodup _ _ _ (alSet_keys_nodup _ _ _
    (alSet_keys_nodup _ _ _ (alSet_keys_nodup _ _ _ h)))

theorem getKey_toJson (st : ApiObjectMetadataDefinition) (k : String)
    (h : (st.additionalAttributes.map Prod.fst).Nodup) :
    getKey st.toJson k = (alGet st.mergedEntries k).bind (sanKeep ⟨true, true⟩) := by
  show getKey (sanitizeValue ⟨true, true⟩ (resolve (.obj st.mergedEntries))) k = _
  rw [show resolve (Value.obj st.mergedEntries) = Value.obj st.mergedEntries from rfl]
  rw [show sanitizeValue ⟨true, true⟩ (Value.obj st.mergedEntries) =
    .obj ((sanitizeFields ⟨true, true⟩ st.mergedEntries).filter
      (fun p => !(dropped ⟨true, true⟩ p.2))) from rfl]
  exact alGet_sanObj _ _ _ (mergedEntries_keys_nodup st h)

theorem getKey_toJson_name (st : ApiObjectMetadataDefinition)
    (h : (st.additionalAttributes.map Prod.fst).Nodup) :
    getKey st.toJson "name" = st.name.map Value.str := by
  rw [getKey_toJson st _ h, mergedEntries_get_name]
  cases st.name with
  | none => rfl
  | some s => rfl

end ApiObjectMetadataDefinition

theorem applyOp_labels_isSome (st : ApiObjectMetadataDefinition) (op : Op)
    (h : st.labels.isSome) : (applyOp st op).labels.isSome := by
  cases op with
  | addLabel k v =>
    cases hm : st.labels with
    | none => rw [hm] at h; exact absurd h (by simp)
    | some m => simp [applyOp, ApiObjectMetadataDefinition.addLabel, hm]
  | addAnnotation k v => simpa [applyOp, ApiObjectMetadataDefinition.addAnnotation] using h
  | add k v => simpa [applyOp, ApiObjectMetadataDefinition.add] using h
  | getLabel k => simpa [applyOp] using h
  | toSnapshot => simpa [applyOp] using h

theorem applyOp_annotations_isSome (st : ApiObjectMetadataDefinition) (op : Op)
    (h : st.annotations.isSome) : (applyOp st op).annotations.isSome := by
  cases op with
  | addLabel k v => simpa [applyOp, ApiObjectMetadataDefinition.addLabel] using h
  | addAnnotation k v =>
    cases hm : st.annotations with
    | none => rw [hm] at h; exact absurd h (by simp)
    | some m => simp [applyOp, ApiObjectMetadataDefinition.addAnnotation, hm]
  | add k v => simpa [applyOp, ApiObjectMetadataDefinition.add] using h
  | getLabel k => simpa [applyOp] using h
  | toSnapshot => simpa [applyOp] using h

theorem applyOps_labels_isSome (ops : List Op) (st : ApiObjectMetadataDefinition)
    (h : st.labels.isSome) : (applyOps st ops).labels.isSome := by
  induction ops generalizing st with
  | nil => exact h
  | cons op rest ih => exact ih _ (applyOp_labels_isSome st op h)

theorem applyOps_annotations_isSome (ops : List Op) (st : ApiObjectMetadataDefinition)
    (h : st.annotations.isSome) : (applyOps st ops).annotations.isSome := by
  induction ops generalizing st with
  | nil => exact h
  | cons op rest ih => exact ih _ (applyOp_annotations_isSome st op h)

theorem getLabel_applyOp_of_other (st : ApiObjectMetadataDefinition) (op : Op)
    (k' : String) (h : ∀ w, op ≠ Op.addLabel k' w) :
    (applyOp st op).getLabel k' = st.getLabel k' := by
  cases op with
  | addLabel k v =>
    have hk : k ≠ k' := fun hc => h v (by rw [hc])
    cases hm : st.labels with
    | none => simp [applyOp, ApiObjectMetadataDefinition.addLabel,
        ApiObjectMetadataDefinition.getLabel, hm]
    | some m => simp [applyOp, ApiObjectMetadataDefinition.addLabel,
        ApiObjectMetadataDefinition.getLabel, hm, alGet_alSet_ne m k k' v (Ne.symm hk)]
  | addAnnotation k v => rfl
  | add k v => rfl
  | getLabel k => rfl
  | toSnapshot => rfl

theorem getLabel_applyOps_of_not_added (ops : List Op)
    (st : ApiObjectMetadataDefinition) (k' : String)
    (h : ∀ w, Op.addLabel k' w ∉ ops) :
    (applyOps st ops).getLabel k' = st.getLabel k' := by
  induction ops generalizing st with
  | nil => rfl
  | cons op rest ih =>
    have hop : ∀ w, op ≠ Op.addLabel k' w := by
      intro w hc
      exact h w (by rw [← hc]; exact List.mem_cons_self op rest)
    have hrest : ∀ w, Op.addLabel k' w ∉ rest := by
      intro w hc
      exact h w (List.mem_cons_of_mem op hc)
    rw [show applyOps st (op :: rest) = applyOps (applyOp st op) rest from rfl,
      ih (applyOp st op) hrest, getLabel_applyOp_of_other st op k' hop]

open ApiObjectMetadataDefinition in
/-- C1: for every metadata record, `toJson` returns exactly
`sanitize(resolve(m))`, where `m` is the merged mapping built from
`additionalAttributes` overwritten in order by the typed `name`,
`namespace`, `annotations`, `labels`, and `sanitize` runs with both
`filterEmptyArrays` and `filterEmptyObjects` enabled. -/
theorem toJson_eq_sanitize_resolve_specMerge (st : ApiObjectMetadataDefinition) :
    st.toJson = sanitizeValue ⟨true, true⟩ (resolve (.obj (specMergedMapping st))) :=
  rfl

open ApiObjectMetadataDefinition in
/-- C2: when `additionalAttributes` holds a `name` entry different from
the typed `name` field, the snapshot maps `name` to the typed field's
value (so for an absent typed name, to no value), not to the
`additionalAttributes` entry. -/
theorem typedName_overrides_additionalAttributes
    (st : ApiObjectMetadataDefinition) (v : Value)
    (hnd : (st.additionalAttributes.map Prod.fst).Nodup)
    (_hmem : alGet st.additionalAttributes "name" = some v)
    (_hne : v ≠ optStr st.name) :
    getKey st.toJson "name" = st.name.map Value.str :=
  getKey_toJson_name st hnd

open ApiObjectMetadataDefinition in
/-- C2 witness: the record built with no options followed by
`add("name", "bogus")` carries a stale `name` attribute; its snapshot has
no `name` key (the absent typed field wins). -/
theorem typedName_overrides_additionalAttributes_witness :
    ((((init {}).add "name" (.str "bogus")).additionalAttributes.map Prod.fst).Nodup ∧
      alGet ((init {}).add "name" (.str "bogus")).additionalAttributes "name" =
        some (.str "bogus") ∧
      Value.str "bogus" ≠ optStr ((init {}).add "name" (.str "bogus")).name) ∧
    getKey ((init {}).add "name" (.str "bogus")).toJson "name" = none :=
  ⟨⟨by decide, rfl, fun h => Value.noConfusion h⟩,
    typedName_overrides_additionalAttributes
      ((init {}).add "name" (.str "bogus")) (.str "bogus")
      (by decide) rfl (fun h => Value.noConfusion h)⟩

open ApiObjectMetadataDefinition in
/-- C3: after `addLabel(k, v)`, `getLabel(k)` returns `v`; `getLabel` on
a key neither present in the construction-time labels nor ever added by
the operation sequence returns `none`; and `getLabel` leaves the record's
state untouched. -/
theorem addLabel_getLabel_contract (o : ApiObjectMetadata) (ops : List Op)
    (k k' v : String)
    (hinit : alGet (o.labels.getD []) k' = none)
    (hops : ops.all (fun op => !(touchesLabel k' op)) = true) :
    ((applyOps (init o) ops).addLabel k v).getLabel k = some v ∧
    (applyOps (init o) ops).getLabel k' = none ∧
    (∀ key, applyOp (applyOps (init o) ops) (Op.getLabel key) = applyOps (init o) ops) := by
  refine ⟨?_, ?_, fun key => rfl⟩
  · have hsome : (applyOps (init o) ops).labels.isSome :=
      applyOps_labels_isSome ops (init o) rfl
    obtain ⟨m, hm⟩ := Option.isSome_iff_exists.1 hsome
    simp [ApiObjectMetadataDefinition.addLabel, ApiObjectMetadataDefinition.getLabel,
      hm, alGet_alSet_self]
  · have hmem : ∀ w, Op.addLabel k' w ∉ ops := by
      intro w hw
      have := List.all_eq_true.1 hops _ hw
      simp [touchesLabel] at this
    rw [getLabel_applyOps_of_not_added ops (init o) k' hmem]
    simpa [ApiObjectMetadataDefinition.getLabel, init] using hinit

open ApiObjectMetadataDefinition in
/-- C3 witness: with no initial labels and the single operation
`addLabel("a", "x")`, `getLabel` returns the value just added for a key,
returns `none` for the never-added key `"b"`, and is state-preserving. -/
theorem addLabel_getLabel_contract_witness :
    (alGet (({} : ApiObjectMetadata).labels.getD []) "b" = none ∧
      ([Op.addLabel "a" "x"].all (fun op => !(touchesLabel "b" op)) = true)) ∧
    ((applyOps (init {}) [Op.addLabel "a" "x"]).addLabel "a" "y").getLabel "a" =
      some "y" ∧
    (applyOps (init {}) [Op.addLabel "a" "x"]).getLabel "b" = none ∧
    (∀ key, applyOp (applyOps (init {}) [Op.addLabel "a" "x"]) (Op.getLabel key) =
      applyOps (init {}) [Op.addLabel "a" "x"]) :=
  ⟨⟨rfl, by simp [touchesLabel]⟩,
    addLabel_getLabel_contract {} [Op.addLabel "a" "x"] "a" "b" "y" rfl
      (by simp [touchesLabel])⟩

open ApiObjectMetadataDefinition in
/-- C4: the record constructed with no options and not mutated snapshots
to the empty document; in particular the snapshot has no `labels` and no
`annotations` key (both empty mappings are filtered out). -/
theorem emptyOptions_toJson_omits_labels_annotations :
    (init {}).toJson = .obj [] ∧
    getKey (init {}).toJson "labels" = none ∧
    getKey (init {}).toJson "annotations" = none :=
  ⟨rfl, rfl, rfl⟩

open ApiObjectMetadataDefinition in
/-- C5: taking a snapshot leaves the record's state unchanged, so two
`toSnapshot` calls with no mutation in between return equal documents
(snapshots are recomputed from the state, never cached). -/
theorem toSnapshot_idempotent_and_stateless (st : ApiObjectMetadataDefinition) :
    applyOp st Op.toSnapshot = st ∧
    (applyOp st Op.toSnapshot).toJson = st.toJson :=
  ⟨rfl, rfl⟩

open ApiObjectMetadataDefinition in
/-- C6: after construction from any options bundle and any sequence of
`addLabel`, `addAnnotation`, `add`, `getLabel` and `toSnapshot`
operations, the `labels` and `annotations` fields are present mappings,
never absent. -/
theorem labels_annotations_never_absent (o : ApiObjectMetadata) (ops : List Op) :
    (applyOps (init o) ops).labels.isSome = true ∧
    (applyOps (init o) ops).annotations.isSome = true :=
  ⟨applyOps_labels_isSome ops (init o) rfl,
    applyOps_annotations_isSome ops (init o) rfl⟩

open ApiObjectMetadataDefinition in
/-- C7: `addLabel` writes exactly the given label entry and nothing
else, `addAnnotation` likewise for annotations, `add` likewise for the
additional attributes, and `name`/`namespace` are unchanged by every
operation. -/
theorem mutator_frame_conditions (st : ApiObjectMetadataDefinition)
    (lm am : List (String × String))
    (hl : st.labels = some lm) (ha : st.annotations = some am)
    (k v : String) (w : Value) :
    ((st.addLabel k v).name = st.name ∧
      (st.addLabel k v).namespace' = st.namespace' ∧
      (st.addLabel k v).annotations = st.annotations ∧
      (st.addLabel k v).additionalAttributes = st.additionalAttributes ∧
      (st.addLabel k v).labels = some (alSet lm k v) ∧
      (st.addLabel k v).getLabel k = some v ∧
      (∀ k', k' ≠ k → (st.addLabel k v).getLabel k' = st.getLabel k')) ∧
    ((st.addAnnotation k v).name = st.name ∧
      (st.addAnnotation k v).namespace' = st.namespace' ∧
      (st.addAnnotation k v).labels = st.labels ∧
      (st.addAnnotation k v).additionalAttributes = st.additionalAttributes ∧
      (st.addAnnotation k v).annotations = some (alSet am k v) ∧
      alGet (alSet am k v) k = some v ∧
      (∀ k', k' ≠ k → alGet (alSet am k v) k' = alGet am k')) ∧
    ((st.add k w).name = st.name ∧
      (st.add k w).namespace' = st.namespace' ∧
      (st.add k w).labels = st.labels ∧
      (st.add k w).annotations = st.annotations ∧
      alGet (st.add k w).additionalAttributes k = some w ∧
      (∀ k', k' ≠ k → alGet (st.add k w).additionalAttributes k' =
        alGet st.additionalAttributes k')) ∧
    (∀ op, (applyOp st op).name = st.name ∧
      (applyOp st op).namespace' = st.namespace') := by
  refine ⟨⟨rfl, rfl, rfl, rfl, ?_, ?_, ?_⟩,
    ⟨rfl, rfl, rfl, rfl, ?_, alGet_alSet_self am k v, ?_⟩,
    ⟨rfl, rfl, rfl, rfl, alGet_alSet_self st.additionalAttributes k w, ?_⟩, ?_⟩
  · simp [ApiObjectMetadataDefinition.addLabel, hl]
  · simp [ApiObjectMetadataDefinition.addLabel,
      ApiObjectMetadataDefinition.getLabel, hl, alGet_alSet_self]
  · intro k' hk'
    simp [ApiObjectMetadataDefinition.addLabel,
      ApiObjectMetadataDefinition.getLabel, hl, alGet_alSet_ne lm k k' v hk']
  · simp [ApiObjectMetadataDefinition.addAnnotation, ha]
  · intro k' hk'
    exact alGet_alSet_ne am k k' v hk'
  · intro k' hk'
    exact alGet_alSet_ne st.additionalAttributes k k' w hk'
  · intro op
    cases op <;> exact ⟨rfl, rfl⟩

open ApiObjectMetadataDefinition in
/-- C7 witness: on the record constructed with no options, `addLabel`
leaves the additional attributes untouched while making the new label
readable, and `add` leaves the labels untouched. -/
theorem mutator_frame_conditions_witness :
    ((init {}).labels = some [] ∧ (init {}).annotations = some []) ∧
    ((init {}).addLabel "k" "v").additionalAttributes =
      (init {}).additionalAttributes ∧
    ((init {}).addLabel "k" "v").getLabel "k" = some "v" ∧
    ((init {}).add "k" (.num 1)).labels = (init {}).labels := by
  obtain ⟨⟨_, _, _, h14, _, h16, _⟩, _, ⟨_, _, h33, _⟩, _⟩ :=
    mutator_frame_conditions (init {}) [] [] rfl rfl "k" "v" (.num 1)
  exact ⟨⟨rfl, rfl⟩, h14, h16, h33⟩

open ApiObjectMetadataDefinition in
/-- C8: a failure of the `resolve` collaborator, or of the `sanitize`
collaborator, during `toJson` reaches the caller unchanged (nothing is
caught or translated), and taking a snapshot never changes the record's
state. -/
theorem toJson_propagates_collaborator_failures {ε : Type}
    (st : ApiObjectMetadataDefinition)
    (resolveF sanitizeF : Value → Except ε Value) :
    (∀ e, resolveF (.obj st.mergedEntries) = .error e →
      toJsonWith resolveF sanitizeF st = .error e) ∧
    (∀ r e, resolveF (.obj st.mergedEntries) = .ok r → sanitizeF r = .error e →
      toJsonWith resolveF sanitizeF st = .error e) ∧
    applyOp st Op.toSnapshot = st ∧
    @toJsonWith ε (fun x => .ok (resolve x))
      (fun x => .ok (sanitizeValue ⟨true, true⟩ x)) st = .ok st.toJson := by
  refine ⟨fun e he => ?_, fun r e hr hs => ?_, rfl, rfl⟩
  · simp [toJsonWith, he, Except.bind]
  · simp [toJsonWith, hr, hs, Except.bind]

open ApiObjectMetadataDefinition in
/-- C8 witness: with a resolver that throws, `toJson` surfaces exactly
that failure; with a sanitizer that throws, likewise. -/
theorem toJson_propagates_collaborator_failures_witness :
    ((fun _ : Value => (Except.error "resolve failed" : Except String Value))
        (.obj (init {}).mergedEntries) = .error "resolve failed" →
      toJsonWith (fun _ => .error "resolve failed") (fun x => .ok x) (init {}) =
        .error "resolve failed") ∧
    toJsonWith (fun _ : Value => (Except.error "resolve failed" : Except String Value))
      (fun x => .ok x) (init {}) = .error "resolve failed" ∧
    toJsonWith (fun x : Value => (Except.ok x : Except String Value))
      (fun _ => .error "sanitize failed") (init {}) = .error "sanitize failed" :=
  ⟨(toJson_propagates_collaborator_failures (init {})
      (fun _ => .error "resolve failed") (fun x => .ok x)).1 "resolve failed",
    (toJson_propagates_collaborator_failures (init {})
      (fun _ => .error "resolve failed") (fun x => .ok x)).1 "resolve failed" rfl,
    (toJson_propagates_collaborator_failures (init {})
      (fun x => .ok x) (fun _ => .error "sanitize failed")).2.1
      (.obj (init {}).mergedEntries) "sanitize failed" rfl rfl⟩

open ApiObjectMetadataDefinition in
/-- C9: constructing with `{ }` and calling `add("custom", 42)` then
`toJson` yields exactly `{ custom: 42 }`: no `name`, `namespace`,
`labels` or `annotations` key. -/
theorem add_custom_snapshot_exact :
    ((init {}).add "custom" (.num 42)).toJson = .obj [("custom", .num 42)] ∧
    getKey ((init {}).add "custom" (.num 42)).toJson "name" = none ∧
    getKey ((init {}).add "custom" (.num 42)).toJson "namespace" = none ∧
    getKey ((init {}).add "custom" (.num 42)).toJson "labels" = none ∧
    getKey ((init {}).add "custom" (.num 42)).toJson "annotations" = none :=
  ⟨rfl, rfl, rfl, rfl, rfl⟩

open ApiObjectMetadataDefinition in
/-- C10: a value stored via `add` under one of the reserved keys
`name`, `namespace`, `annotations`, `labels` never shows in the
snapshot — the snapshot's entry for that key is the same as without the
`add` — and with an absent typed name, `add("name", v)` still yields a
snapshot with no `name` key. -/
theorem reserved_keys_shadowed_by_typed_fields
    (st : ApiObjectMetadataDefinition) (k : String) (v : Value)
    (hnd : (st.additionalAttributes.map Prod.fst).Nodup)
    (hk : k = "name" ∨ k = "namespace" ∨ k = "annotations" ∨ k = "labels") :
    getKey (st.add k v).toJson k = getKey st.toJson k ∧
    (st.name = none → getKey (st.add "name" v).toJson "name" = none) := by
  have hnd2 : ∀ key val, (((st.add key val).additionalAttributes.map Prod.fst)).Nodup :=
    fun key val => alSet_keys_nodup st.additionalAttributes key val hnd
  constructor
  · rw [getKey_toJson (st.add k v) k (hnd2 k v), getKey_toJson st k hnd]
    rcases hk with hk | hk | hk | hk <;> subst hk
    · rw [mergedEntries_get_name, mergedEntries_get_name]; rfl
    · rw [mergedEntries_get_namespace, mergedEntries_get_namespace]; rfl
    · rw [mergedEntries_get_annotations, mergedEntries_get_annotations]; rfl
    · rw [mergedEntries_get_labels, mergedEntries_get_labels]; rfl
  · intro hname
    rw [getKey_toJson_name (st.add "name" v) (hnd2 "name" v)]
    show st.name.map Value.str = none
    rw [hname]
    rfl

open ApiObjectMetadataDefinition in
/-- C10 witness: on the record constructed with no options, storing
`"x"` under the reserved key `name` via `add` leaves the snapshot's
`name` entry as it was — absent. -/
theorem reserved_keys_shadowed_by_typed_fields_witness :
    (((init {}).additionalAttributes.map Prod.fst).Nodup ∧
      ("name" = "name" ∨ "name" = "namespace" ∨ "name" = "annotations" ∨
        "name" = "labels")) ∧
    getKey ((init {}).add "name" (.str "x")).toJson "name" =
      getKey (init {}).toJson "name" ∧
    ((init {}).name = none → getKey ((init {}).add "name" (.str "x")).toJson "name" = none) :=
  ⟨⟨by decide, Or.inl rfl⟩,
    reserved_keys_shadowed_by_typed_fields (init {}) "name" (.str "x")
      (by decide) (Or.inl rfl)⟩

end Cdk8s
